import Mathlib

/-!
Shallow embedding of `src/BenchmarkController.tsx`: the shuffle helper,
the dataset generation, the per-card date computation, and the benchmark
controller's trigger/commit state machine.
-/

namespace Benchmark

/-! ## Shuffle helper (`shuffleArray`, lines 30-37)

JS mutable arrays of strings are embedded as `List String`; the in-place
element swap `[shuffled[i], shuffled[j]] = [shuffled[j], shuffled[i]]`
becomes a pure function returning the updated list.  Out-of-range reads
(`undefined` in JS) never occur in the loop; the embedding leaves the list
unchanged in that case. -/

/-- One destructuring swap step of the Fisher-Yates loop. -/
def listSwap (l : List String) (i j : Nat) : List String :=
  match l[i]?, l[j]? with
  | some a, some b => (l.set i b).set j a
  | _, _ => l

/-- The loop `for (let i = shuffled.length - 1; i > 0; i--)`: processes
index `i`, then `i - 1`, ..., down to `1`.  `Math.floor(Math.random() * (i + 1))`
is embedded as `rand i % (i + 1)`, an arbitrary draw clamped to `[0, i]`. -/
def fyLoop (rand : Nat → Nat) : Nat → List String → List String
  | 0, l => l
  | i + 1, l => fyLoop rand i (listSwap l (i + 1) (rand (i + 1) % (i + 2)))

/-- `shuffleArray(array, limit?)`: copy, shuffle, then
`limit ? shuffled.slice(0, limit) : shuffled` — note JS truthiness:
`limit = 0` (and an absent limit) returns the whole shuffled array. -/
def shuffleArray (rand : Nat → Nat) (array : List String) (limit : Option Nat) : List String :=
  let shuffled := fyLoop rand (array.length - 1) array
  match limit with
  | none => shuffled
  | some n => if n = 0 then shuffled else shuffled.take n

/-! ## Dataset generation (lines 124-129) -/

def NUM_OF_ITEMS : Nat := 50

/-- `new Array(20).fill(0).map(() => shuffleArray(allLocales, NUM_OF_ITEMS))`;
each of the 20 calls draws fresh ambient randomness, embedded as `rands b`. -/
def arrayOfLocale (rands : Nat → Nat → Nat) (allLocales : List String) : List (List String) :=
  (List.range 20).map fun b => shuffleArray (rands b) allLocales (some NUM_OF_ITEMS)

/-! ## Permutation facts about the shuffle -/

lemma cons_get_set_perm (a : String) :
    ∀ (t : List String) (k : Nat) (hk : k < t.length),
      List.Perm (t.get ⟨k, hk⟩ :: t.set k a) (a :: t) := by
  intro t
  induction t with
  | nil => intro k hk; simp at hk
  | cons b t ih =>
    intro k hk
    match k with
    | 0 => simpa using List.Perm.swap a b t
    | m + 1 =>
      have hm : m < t.length := by simpa using Nat.lt_of_succ_lt_succ hk
      have step1 : List.Perm (t.get ⟨m, hm⟩ :: b :: t.set m a) (b :: t.get ⟨m, hm⟩ :: t.set m a) :=
        List.Perm.swap b (t.get ⟨m, hm⟩) (t.set m a)
      have step2 : List.Perm (b :: t.get ⟨m, hm⟩ :: t.set m a) (b :: a :: t) :=
        List.Perm.cons b (ih m hm)
      have step3 : List.Perm (b :: a :: t) (a :: b :: t) := List.Perm.swap a b t
      simpa using (step1.trans step2).trans step3

lemma set_get_swap_perm :
    ∀ (l : List String) (i j : Nat) (hi : i < l.length) (hj : j < l.length),
      List.Perm ((l.set i (l.get ⟨j, hj⟩)).set j (l.get ⟨i, hi⟩)) l := by
  intro l
  induction l with
  | nil => intro i j hi hj; simp at hi
  | cons c t ih =>
    intro i j hi hj
    match i, j with
    | 0, 0 => simp
    | 0, n + 1 =>
      have hn : n < t.length := by simpa using Nat.lt_of_succ_lt_succ hj
      simpa using cons_get_set_perm c t n hn
    | m + 1, 0 =>
      have hm : m < t.length := by simpa using Nat.lt_of_succ_lt_succ hi
      simpa using cons_get_set_perm c t m hm
    | m + 1, n + 1 =>
      have hm : m < t.length := by simpa using Nat.lt_of_succ_lt_succ hi
      have hn : n < t.length := by simpa using Nat.lt_of_succ_lt_succ hj
      simpa using List.Perm.cons c (ih m n hm hn)

lemma listSwap_perm (l : List String) (i j : Nat) : List.Perm (listSwap l i j) l := by
  unfold listSwap
  match h1 : l[i]?, h2 : l[j]? with
  | some a, some b =>
    have hi : i < l.length := by
      by_contra h
      simp [List.getElem?_eq_none (Nat.le_of_not_lt h)] at h1
    have hj : j < l.length := by
      by_contra h
      simp [List.getElem?_eq_none (Nat.le_of_not_lt h)] at h2
    have ha : l.get ⟨i, hi⟩ = a := by
      have := List.getElem?_eq_getElem hi
      rw [h1] at this
      simpa using (Option.some.inj this).symm
    have hb : l.get ⟨j, hj⟩ = b := by
      have := List.getElem?_eq_getElem hj
      rw [h2] at this
      simpa using (Option.some.inj this).symm
    rw [← ha, ← hb]
    exact set_get_swap_perm l i j hi hj
  | some _, none => exact List.Perm.refl l
  | none, _ => exact List.Perm.refl l

lemma fyLoop_perm (rand : Nat → Nat) :
    ∀ (n : Nat) (l : List String), List.Perm (fyLoop rand n l) l := by
  intro n
  induction n with
  | zero => intro l; exact List.Perm.refl l
  | succ i ih =>
    intro l
    exact (ih _).trans (listSwap_perm l (i + 1) (rand (i + 1) % (i + 2)))

lemma shuffleArray_none_perm (rand : Nat → Nat) (array : List String) :
    List.Perm (shuffleArray rand array none) array :=
  fyLoop_perm rand (array.length - 1) array

lemma shuffleArray_some_eq (rand : Nat → Nat) (array : List String) {n : Nat} (hn : n ≠ 0) :
    shuffleArray rand array (some n) = (fyLoop rand (array.length - 1) array).take n := by
  simp [shuffleArray, hn]

/-! ## LocalCard date computation (lines 58-70)

Dates are embedded as day numbers (`Nat`): `new Date()` yields the current
day `nowDays`, and `d.setDate(d.getDate() + k)` shifts the date by `k` days. -/

/-- `locale.split("").reduce((acc, char) => acc + char.charCodeAt(0), 0)`. -/
def uniqueOffset (locale : String) : Nat :=
  locale.data.foldl (fun acc c => acc + c.toNat) 0

/-- The date instant produced by `LocalCard`:
`dynamicDate.setDate(dynamicDate.getDate() + renderKey * 365 + uniqueOffset)`
applied to the current wall-clock date. -/
def computeDateInstant (nowDays : Nat) (locale : String) (renderKey : Nat) : Nat :=
  nowDays + renderKey * 365 + uniqueOffset locale

/-- The hash described by the spec: the sum of the character codes of the
locale string (spec wording, for the refinement comparison in C6). -/
def specLocaleHash (locale : String) : Nat :=
  (locale.data.map Char.toNat).sum

/-! ## Benchmark controller (lines 178-215) -/

inductive Variant
  | native
  | intlayer
  deriving DecidableEq

/-- The controller's mutable state: the six `useState` cells and the two
refs (`startTimeRef`, with `0` meaning "no open window", and
`activeBenchmarkRef`).  Times are in clock ticks (`Nat`). -/
structure CtrlState where
  nativeLocale : String
  intlayerLocale : String
  nativeRenderKey : Nat
  intlayerRenderKey : Nat
  nativeTime : Nat
  intlayerTime : Nat
  startTimeRef : Nat
  activeBenchmarkRef : Option Variant
  deriving DecidableEq

def initState : CtrlState :=
  { nativeLocale := "en", intlayerLocale := "en",
    nativeRenderKey := 0, intlayerRenderKey := 0,
    nativeTime := 0, intlayerTime := 0,
    startTimeRef := 0, activeBenchmarkRef := none }

/-- `Math.random() > 0.5 ? "fr" : "de"`, with the random draw embedded as a coin. -/
def pickNextLocale (coin : Bool) : String :=
  if coin then "fr" else "de"

/-- `triggerSwitch(type)`: record the active benchmark and start time, then
set the chosen locale and increment the render key of that variant. -/
def triggerSwitch (ty : Variant) (coin : Bool) (now : Nat) (s : CtrlState) : CtrlState :=
  let nextLocale := pickNextLocale coin
  match ty with
  | .native =>
      { s with activeBenchmarkRef := some .native, startTimeRef := now,
               nativeLocale := nextLocale, nativeRenderKey := s.nativeRenderKey + 1 }
  | .intlayer =>
      { s with activeBenchmarkRef := some .intlayer, startTimeRef := now,
               intlayerLocale := nextLocale, intlayerRenderKey := s.intlayerRenderKey + 1 }

/-- The body of the `useLayoutEffect` post-commit callback: if
`startTimeRef.current > 0 && activeBenchmarkRef.current`, store the elapsed
time into the active variant's time cell and clear both refs; otherwise do
nothing. -/
def commitEffect (now : Nat) (s : CtrlState) : CtrlState :=
  if 0 < s.startTimeRef then
    match s.activeBenchmarkRef with
    | some .native =>
        { s with nativeTime := now - s.startTimeRef,
                 startTimeRef := 0, activeBenchmarkRef := none }
    | some .intlayer =>
        { s with intlayerTime := now - s.startTimeRef,
                 startTimeRef := 0, activeBenchmarkRef := none }
    | none => s
  else s

/-- An interleaving of the two kinds of externally observable events. -/
inductive Event
  | trigger (ty : Variant) (coin : Bool) (now : Nat)
  | commit (now : Nat)
  deriving DecidableEq

def step (e : Event) (s : CtrlState) : CtrlState :=
  match e with
  | .trigger ty coin now => triggerSwitch ty coin now s
  | .commit now => commitEffect now s

def run (es : List Event) (s : CtrlState) : CtrlState :=
  es.foldl (fun t e => step e t) s

def other : Variant → Variant
  | .native => .intlayer
  | .intlayer => .native

/-- A variant's `lastDuration` (the `nativeTime` / `intlayerTime` cell). -/
def lastDuration (s : CtrlState) : Variant → Nat
  | .native => s.nativeTime
  | .intlayer => s.intlayerTime

/-- A variant's generation counter (the `nativeRenderKey` / `intlayerRenderKey` cell). -/
def generationOf (s : CtrlState) : Variant → Nat
  | .native => s.nativeRenderKey
  | .intlayer => s.intlayerRenderKey

/-- The number of trigger events of a given variant in a trace. -/
def countTriggers (v : Variant) (es : List Event) : Nat :=
  es.countP fun e =>
    match e with
    | .trigger ty _ _ => decide (ty = v)
    | .commit _ => false

/-- The final state of the single-trigger scenario: trigger the cached
(intlayer) variant once at time `t0`, then deliver the commit signal at `t1`. -/
def singleTriggerFinal (coin : Bool) (t0 t1 : Nat) : CtrlState :=
  run [Event.trigger .intlayer coin t0, Event.commit t1] initState

/-- The final state of the interleaved scenario: trigger native at `tA`,
immediately trigger intlayer at `tB` before any commit, then deliver
commit signals at `tC` and `tD`. -/
def interleavedFinal (coinA coinB : Bool) (tA tB tC tD : Nat) : CtrlState :=
  run [Event.trigger .native coinA tA, Event.trigger .intlayer coinB tB,
       Event.commit tC, Event.commit tD] initState

/-! ## Helper lemmas -/

lemma foldl_charCodes (l : List Char) (a : Nat) :
    l.foldl (fun acc c => acc + c.toNat) a = a + (l.map Char.toNat).sum := by
  induction l generalizing a with
  | nil => simp
  | cons c t ih => simp [ih, Nat.add_assoc]

lemma uniqueOffset_eq_specLocaleHash (locale : String) :
    uniqueOffset locale = specLocaleHash locale := by
  simp [uniqueOffset, specLocaleHash, foldl_charCodes]

lemma generationOf_commitEffect (now : Nat) (s : CtrlState) (v : Variant) :
    generationOf (commitEffect now s) v = generationOf s v := by
  unfold commitEffect
  split
  · match h : s.activeBenchmarkRef with
    | some .native => cases v <;> simp [h, generationOf]
    | some .intlayer => cases v <;> simp [h, generationOf]
    | none => simp [h]
  · rfl

lemma generationOf_trigger (ty : Variant) (coin : Bool) (now : Nat) (s : CtrlState) (v : Variant) :
    generationOf (triggerSwitch ty coin now s) v =
      generationOf s v + (if ty = v then 1 else 0) := by
  cases ty <;> cases v <;> simp [triggerSwitch, generationOf]

lemma run_generation (es : List Event) (s : CtrlState) (v : Variant) :
    generationOf (run es s) v = generationOf s v + countTriggers v es := by
  induction es generalizing s with
  | nil => simp [run, countTriggers]
  | cons e es ih =>
    have hrun : run (e :: es) s = run es (step e s) := rfl
    match e with
    | .commit now =>
      rw [hrun, ih]
      simp [countTriggers, step, generationOf_commitEffect, List.countP_cons]
    | .trigger ty coin now =>
      rw [hrun, ih]
      simp only [countTriggers, step, List.countP_cons, generationOf_trigger]
      by_cases h : ty = v
      · simp only [h, if_pos rfl, decide_eq_true_eq, if_true]
        omega
      · simp [h]

/-! ## Claims -/

/-- C1: Window isolation.  For any controller state and any commit time, a
commit callback attributed to variant `v` (`activeBenchmarkRef = some v`)
never changes the other variant's `lastDuration`: `nativeTime` is never
written by an intlayer-attributed commit and `intlayerTime` is never written
by a native-attributed commit.  Quantifying over all states covers every
interleaving of triggers and commit signals. -/
theorem c1_window_isolation (s : CtrlState) (now : Nat) (v : Variant)
    (h : s.activeBenchmarkRef = some v) :
    lastDuration (commitEffect now s) (other v) = lastDuration s (other v) := by
  cases v
  · unfold commitEffect
    rw [h]
    split <;> simp [lastDuration, other]
  · unfold commitEffect
    rw [h]
    split <;> simp [lastDuration, other]

/-- Witness for C1 at a concrete state with an open intlayer-attributed window. -/
theorem c1_window_isolation_witness :
    ({ initState with startTimeRef := 2,
                      activeBenchmarkRef := some Variant.intlayer } : CtrlState).activeBenchmarkRef
        = some Variant.intlayer ∧
    lastDuration
        (commitEffect 9
          { initState with startTimeRef := 2, activeBenchmarkRef := some Variant.intlayer })
        (other Variant.intlayer)
      = lastDuration
          { initState with startTimeRef := 2, activeBenchmarkRef := some Variant.intlayer }
          (other Variant.intlayer) :=
  ⟨rfl, c1_window_isolation _ 9 Variant.intlayer rfl⟩

/-- C3: Stale commit signal is a no-op.  If the post-commit callback runs
while no measurement window is open (`startTimeRef = 0`), the state is left
completely unchanged — in particular neither variant's `lastDuration`
changes and no duration is produced at all. -/
theorem c3_stale_commit_noop (s : CtrlState) (now : Nat) (h : s.startTimeRef = 0) :
    commitEffect now s = s := by
  simp [commitEffect, h]

/-- Witness for C3 at the initial state, whose window is closed. -/
theorem c3_stale_commit_noop_witness :
    initState.startTimeRef = 0 ∧ commitEffect 7 initState = initState :=
  ⟨rfl, c3_stale_commit_noop initState 7 rfl⟩

/-- C4: Monotonic generation.  For every variant and every event trace from
the initial state, the variant's generation counter equals the number of
trigger events of that variant in the trace: each trigger increments it by
exactly 1 (commits never touch it), so it never decreases, skips, or wraps. -/
theorem c4_generation_counts (v : Variant) (es : List Event) :
    generationOf (run es initState) v = countTriggers v es := by
  have h := run_generation es initState v
  cases v <;> simpa [initState, generationOf] using h

/-- C9: Single-trigger scenario.  From the initial state, triggering the
cached (intlayer) variant once at time `t0 > 0` and delivering the next
commit signal at time `t1 > t0` leaves the cached variant at generation 1
with `lastDuration = t1 - t0 > 0`, while the uncached (native) variant's
generation, `displayLocale`, and `lastDuration` are all unchanged. -/
theorem c9_single_trigger (coin : Bool) (t0 t1 : Nat) (h0 : 0 < t0) (h1 : t0 < t1) :
    (singleTriggerFinal coin t0 t1).intlayerRenderKey = 1 ∧
    (singleTriggerFinal coin t0 t1).intlayerTime = t1 - t0 ∧
    0 < (singleTriggerFinal coin t0 t1).intlayerTime ∧
    (singleTriggerFinal coin t0 t1).nativeRenderKey = 0 ∧
    (singleTriggerFinal coin t0 t1).nativeLocale = "en" ∧
    (singleTriggerFinal coin t0 t1).nativeTime = 0 := by
  have hfin : singleTriggerFinal coin t0 t1 =
      { nativeLocale := "en", intlayerLocale := pickNextLocale coin,
        nativeRenderKey := 0, intlayerRenderKey := 1,
        nativeTime := 0, intlayerTime := t1 - t0,
        startTimeRef := 0, activeBenchmarkRef := none } := by
    simp [singleTriggerFinal, run, step, triggerSwitch, commitEffect, initState, h0]
  rw [hfin]
  exact ⟨rfl, rfl, Nat.sub_pos_of_lt h1, rfl, rfl, rfl⟩

/-- Witness for C9 with trigger at time 1 and commit at time 3. -/
theorem c9_single_trigger_witness :
    0 < 1 ∧ 1 < 3 ∧
    ((singleTriggerFinal true 1 3).intlayerRenderKey = 1 ∧
     (singleTriggerFinal true 1 3).intlayerTime = 3 - 1 ∧
     0 < (singleTriggerFinal true 1 3).intlayerTime ∧
     (singleTriggerFinal true 1 3).nativeRenderKey = 0 ∧
     (singleTriggerFinal true 1 3).nativeLocale = "en" ∧
     (singleTriggerFinal true 1 3).nativeTime = 0) :=
  ⟨by decide, by decide, c9_single_trigger true 1 3 (by decide) (by decide)⟩

/-- C2, counterexample: trigger native at time 1, then intlayer at time 2
before any commit, then deliver commits at times 5 and 6.  Both variants
reach generation 1, but native's `lastDuration` stays at its initial value 0
— it is never updated from native's measurement window (which opened at
time 1), because the second trigger overwrote the single shared
`startTimeRef`/`activeBenchmarkRef` pair.  The first commit is attributed
to intlayer (duration 5 - 2 = 3) and the second is a no-op. -/
theorem c2_interleaved_cex :
    (interleavedFinal true true 1 2 5 6).nativeRenderKey = 1 ∧
    (interleavedFinal true true 1 2 5 6).intlayerRenderKey = 1 ∧
    (interleavedFinal true true 1 2 5 6).intlayerTime = 3 ∧
    (interleavedFinal true true 1 2 5 6).nativeTime = 0 := by
  decide

/-- C2, amended: triggering native then intlayer before either commit makes
both variants reach generation 1, but only the last-triggered (intlayer)
variant's `lastDuration` is updated at the next commit (to a positive
duration measured from its own trigger time); the first-triggered (native)
variant's window is silently lost and its `lastDuration` is unchanged, and
the following commit signal is a no-op. -/
theorem c2_interleaved_amended (coinA coinB : Bool) (tA tB tC tD : Nat)
    (hB : 0 < tB) (hC : tB < tC) :
    (interleavedFinal coinA coinB tA tB tC tD).nativeRenderKey = 1 ∧
    (interleavedFinal coinA coinB tA tB tC tD).intlayerRenderKey = 1 ∧
    (interleavedFinal coinA coinB tA tB tC tD).intlayerTime = tC - tB ∧
    0 < (interleavedFinal coinA coinB tA tB tC tD).intlayerTime ∧
    (interleavedFinal coinA coinB tA tB tC tD).nativeTime = 0 := by
  have hfin : interleavedFinal coinA coinB tA tB tC tD =
      { nativeLocale := pickNextLocale coinA, intlayerLocale := pickNextLocale coinB,
        nativeRenderKey := 1, intlayerRenderKey := 1,
        nativeTime := 0, intlayerTime := tC - tB,
        startTimeRef := 0, activeBenchmarkRef := none } := by
    simp [interleavedFinal, run, step, triggerSwitch, commitEffect, initState, hB]
  rw [hfin]
  exact ⟨rfl, rfl, rfl, Nat.sub_pos_of_lt hC, rfl⟩

/-- Witness for the amended C2 at trigger times 1 and 2 and commit times 5 and 6. -/
theorem c2_interleaved_amended_witness :
    0 < 2 ∧ 2 < 5 ∧
    ((interleavedFinal true true 1 2 5 6).nativeRenderKey = 1 ∧
     (interleavedFinal true true 1 2 5 6).intlayerRenderKey = 1 ∧
     (interleavedFinal true true 1 2 5 6).intlayerTime = 5 - 2 ∧
     0 < (interleavedFinal true true 1 2 5 6).intlayerTime ∧
     (interleavedFinal true true 1 2 5 6).nativeTime = 0) :=
  ⟨by decide, by decide, c2_interleaved_amended true true 1 2 5 6 (by decide) (by decide)⟩

/-- C5, counterexample: the computed date instant is not a pure function of
`(locale, generation)` — it also depends on the current wall-clock date.
With the same locale "en" and the same generation 1, evaluating at current
day 0 and at current day 1 yields different instants. -/
theorem c5_determinism_cex :
    computeDateInstant 0 "en" 1 ≠ computeDateInstant 1 "en" 1 := by
  unfold computeDateInstant
  omega

/-- C5, amended: the day-offset added to the current wall-clock date is a
pure function of `(locale, generation)`: evaluations at any two current
dates produce instants shifted from their respective current dates by the
same number of days.  (For a fixed current date, the instant is therefore
determined by `(locale, generation)` alone.) -/
theorem c5_offset_determinism (now1 now2 : Nat) (locale : String) (generation : Nat) :
    computeDateInstant now1 locale generation - now1 =
      computeDateInstant now2 locale generation - now2 := by
  unfold computeDateInstant
  omega

/-- C6: Offset formula.  The Label Renderer's date instant for a given
`(locale, generation)` equals the current wall-clock date shifted forward by
exactly `365 * generation + hash(locale)` days, where `hash` is the sum of
the character codes of the locale string (`specLocaleHash`, the spec's
formulation, proved equal to the source's `reduce` over `split("")`). -/
theorem c6_offset_formula (nowDays : Nat) (locale : String) (generation : Nat) :
    computeDateInstant nowDays locale generation =
      nowDays + (365 * generation + specLocaleHash locale) := by
  unfold computeDateInstant
  rw [uniqueOffset_eq_specLocaleHash]
  ring

/-- C7, counterexample: with a 2-element catalog and `batchSize = 3`, dataset
generation does not fail — `shuffleArray` silently returns a batch of
length 2, shorter than the requested batch size.  No `ConfigurationError`
exists in the code. -/
theorem c7_oversize_cex :
    (shuffleArray (fun _ => 0) ["aa", "bb"] (some 3)).length = 2 ∧
    (shuffleArray (fun _ => 0) ["aa", "bb"] (some 3)).length < 3 := by
  decide

/-- C7, amended: when `batchSize` exceeds the catalog size, dataset
generation does not fail at all: `slice(0, limit)` silently returns the
whole shuffled catalog, i.e. a partial batch of length `|catalog| < batchSize`. -/
theorem c7_oversize_amended (rand : Nat → Nat) (catalog : List String) (limit : Nat)
    (h : catalog.length < limit) :
    (shuffleArray rand catalog (some limit)).length = catalog.length := by
  have hne : limit ≠ 0 := by omega
  rw [shuffleArray_some_eq rand catalog hne]
  rw [List.length_take, (fyLoop_perm rand (catalog.length - 1) catalog).length_eq]
  omega

/-- Witness for the amended C7 on a 2-element catalog with batch size 3. -/
theorem c7_oversize_amended_witness :
    (["aa", "bb"] : List String).length < 3 ∧
    (shuffleArray (fun _ => 0) ["aa", "bb"] (some 3)).length
      = (["aa", "bb"] : List String).length :=
  ⟨by decide, c7_oversize_amended (fun _ => 0) ["aa", "bb"] 3 (by decide)⟩

/-- C8: Dataset generation is sampling without replacement.  Assuming
`NUM_OF_ITEMS ≤ |catalog|`, every batch produced by `arrayOfLocale` is
obtained by shuffling a copy of the catalog (a permutation `full` of the
original, untouched catalog) and truncating it to `NUM_OF_ITEMS`, so it has
exactly `NUM_OF_ITEMS` elements drawn from pairwise-distinct positions of
the catalog. -/
theorem c8_sampling (rands : Nat → Nat → Nat) (catalog : List String)
    (h : NUM_OF_ITEMS ≤ catalog.length) :
    ∀ batch ∈ arrayOfLocale rands catalog,
      batch.length = NUM_OF_ITEMS ∧
      ∃ full : List String, List.Perm full catalog ∧ batch = full.take NUM_OF_ITEMS := by
  intro batch hb
  simp only [arrayOfLocale, List.mem_map, List.mem_range] at hb
  obtain ⟨b, _, hbatch⟩ := hb
  have hne : NUM_OF_ITEMS ≠ 0 := by simp [NUM_OF_ITEMS]
  rw [← hbatch, shuffleArray_some_eq (rands b) catalog hne]
  have hlen : (fyLoop (rands b) (catalog.length - 1) catalog).length = catalog.length :=
    (fyLoop_perm (rands b) (catalog.length - 1) catalog).length_eq
  refine ⟨?_, fyLoop (rands b) (catalog.length - 1) catalog,
         fyLoop_perm (rands b) (catalog.length - 1) catalog, rfl⟩
  rw [List.length_take, hlen]
  omega

/-- Witness for C8 on a concrete 50-element catalog. -/
theorem c8_sampling_witness :
    NUM_OF_ITEMS ≤ (List.replicate 50 "x").length ∧
    (∀ batch ∈ arrayOfLocale (fun _ _ => 0) (List.replicate 50 "x"),
      batch.length = NUM_OF_ITEMS ∧
      ∃ full : List String,
        List.Perm full (List.replicate 50 "x") ∧ batch = full.take NUM_OF_ITEMS) :=
  ⟨by simp [NUM_OF_ITEMS],
   c8_sampling (fun _ _ => 0) (List.replicate 50 "x") (by simp [NUM_OF_ITEMS])⟩

/-- C10: Shuffle with a limit of 0.  Because `limit ? ... : ...` treats the
number 0 as falsy, calling `shuffleArray` with limit 0 returns the full
shuffled array — exactly what an absent limit returns, with length equal to
the input's length — rather than an empty sequence. -/
theorem c10_zero_limit (rand : Nat → Nat) (array : List String) :
    shuffleArray rand array (some 0) = shuffleArray rand array none ∧
    (shuffleArray rand array (some 0)).length = array.length := by
  constructor
  · simp [shuffleArray]
  · have h0 : shuffleArray rand array (some 0) = fyLoop rand (array.length - 1) array := by
      simp [shuffleArray]
    rw [h0]
    exact (fyLoop_perm rand (array.length - 1) array).length_eq

end Benchmark
